import Mathlib

/-!
Shallow embedding of the turn-based grid game in `main.py`.

The Python program drives a game loop `Game.__action` over a `collections.deque`
of players and a mutable grid of one-character cell markers.  Pure state is
modelled directly; the recursive calls `self.__action()` inside the handlers
never return (the whole game runs inside them and ends via `sys.exit`), so each
such call is modelled as the end of the current turn: one invocation of `step`
below corresponds to one resolved turn of `Game.__action`.

Deque conventions: `deque.pop()` removes from the right end, `append` adds at
the right, `appendleft` adds at the left, `remove` deletes the first occurrence
from the left.  The queue is modelled as a `List Player` whose head is the LEFT
end of the deque; hence `appendleft` is `· :: ·`, `append` is `· ++ [·]`, and
the popped player is the last element.

`random.sample(WHITE_CELLS, FIRE_AMOUNT)` is modelled by passing the sampled
cell list as an explicit argument constrained by `valid_sample`.
-/

namespace Spacelab

/-- health constants -/
def INITIAL_HEALTH : Int := 5

def HEAL_POINTS : Int := 3

abbrev Pos := Int × Int

abbrev Plain := List (List Char)

/-- The static map layout `INITIAL_PLAIN` of `main.py`. -/
def INITIAL_PLAIN : Plain :=
  [['X', 'X', 'X', 'X', 'H', ' ', ' ', 'F'],
   ['X', 'X', 'K', 'X', 'X', ' ', 'X', 'X'],
   ['X', ' ', ' ', ' ', 'X', ' ', 'H', 'X'],
   [' ', ' ', 'X', ' ', ' ', ' ', 'X', 'X']]

def SPAWN_POINT : Pos := (3, 0)

-- cell variables
def BLOCKED : Char := 'X'

def FREE : Char := ' '

def KEY : Char := 'K'

def HEALTH : Char := 'H'

def FINISH : Char := 'F'

/-- In the source, 'D' stands for Damage. -/
def FIRE : Char := 'D'

/-- `white_cells(plain)`: row-major list of the coordinates of all `FREE` cells. -/
def white_cells (plain : Plain) : List Pos :=
  (List.range plain.length).flatMap (fun (row : Nat) =>
    (List.range (plain.getD row []).length).filterMap (fun (col : Nat) =>
      if (plain.getD row []).getD col FREE = FREE
      then some ((row : Int), (col : Int)) else none))

/-- `WHITE_CELLS = white_cells(INITIAL_PLAIN)` — the static pool fire is sampled from. -/
def WHITE_CELLS : List Pos := white_cells INITIAL_PLAIN

def FIRE_AMOUNT : Nat := 4

-- actions keys
def SAVE : Char := 's'

def UP : Char := 'u'

def DOWN : Char := 'd'

def LEFT : Char := 'l'

def RIGHT : Char := 'r'

/-- Action key for healing; note this is the lowercase letter 'h', distinct
from the `HEALTH` cell marker 'H'. -/
def HEAL : Char := 'h'

def TAKE : Char := 't'

def FIGHT : Char := 'f'

/-- The `move` direction dictionary; keys other than u/d/l/r are never looked
up by the engine (it dispatches on the key first). -/
def move (k : Char) : Pos :=
  if k = UP then (-1, 0)
  else if k = DOWN then (1, 0)
  else if k = LEFT then (0, -1)
  else if k = RIGHT then (0, 1)
  else (0, 0)

structure Player where
  name : String
  health : Int
  has_key : Bool
  cur : Pos
  prev : Option Pos
  hp : Int
deriving DecidableEq, Repr

/-- The `Player.__init__` defaulting logic: every `None` argument is replaced
by the default value, except `prev`, which is stored as given. -/
def mkPlayer (name : String) (health : Option Int) (has_key : Option Bool)
    (cur : Option Pos) (prev : Option Pos) (hp : Option Int) : Player :=
  { name := name
    health := health.getD INITIAL_HEALTH
    has_key := has_key.getD false
    cur := cur.getD SPAWN_POINT
    prev := prev
    hp := hp.getD HEAL_POINTS }

namespace Player

def can_heal (p : Player) : Bool := p.hp > 0 && p.health < INITIAL_HEALTH

def is_alive (p : Player) : Bool := p.health > 0

def assign_key (p : Player) : Player := { p with has_key := true }

def drop_key (p : Player) : Player := { p with has_key := false }

def receive_damage (p : Player) : Player := { p with health := p.health - 1 }

def restore_health (p : Player) : Player := { p with health := INITIAL_HEALTH }

def heal (p : Player) : Player := { p with health := p.health + 1, hp := p.hp - 1 }

def is_step_back (p : Player) (dydx : Pos) : Bool :=
  p.prev == some (p.cur.1 + dydx.1, p.cur.2 + dydx.2)

def move (p : Player) (dydx : Pos) : Player :=
  { p with prev := some p.cur, cur := (p.cur.1 + dydx.1, p.cur.2 + dydx.2) }

end Player

/-- Read the marker at `pos`.  The engine only ever reads in-bounds positions
(it validates moves first), so the out-of-range default is irrelevant to every
engine path. -/
def cellAt (plain : Plain) (pos : Pos) : Char :=
  if 0 ≤ pos.1 ∧ 0 ≤ pos.2 then (plain.getD pos.1.toNat []).getD pos.2.toNat FREE
  else FREE

/-- `GameMap.__mark_cell`: write `cell` at `pos`.  `List.set` is the identity
out of range; the engine only marks in-bounds positions. -/
def mark_cell (plain : Plain) (pos : Pos) (cell : Char) : Plain :=
  if 0 ≤ pos.1 ∧ 0 ≤ pos.2 then
    plain.set pos.1.toNat ((plain.getD pos.1.toNat []).set pos.2.toNat cell)
  else plain

def clear_fire_row (row : List Char) : List Char :=
  row.map (fun c => if c = FIRE then FREE else c)

/-- `GameMap.__clear_cell(FIRE, many=True)`: every fire cell becomes free. -/
def clear_fire (plain : Plain) : Plain := plain.map clear_fire_row

/-- `GameMap.__clear_cell(cell, many=False)` on one row: clear the first
occurrence, reporting whether one was found. -/
def clear_once_row : List Char → Char → Option (List Char)
  | [], _ => none
  | c :: rest, target =>
    if c = target then some (FREE :: rest)
    else (clear_once_row rest target).map (c :: ·)

/-- `GameMap.__clear_cell(cell, many=False)`: clear the first occurrence of
`target` in row-major order. -/
def clear_once : Plain → Char → Plain
  | [], _ => []
  | row :: rest, target =>
    match clear_once_row row target with
    | some rowCleared => rowCleared :: rest
    | none => row :: clear_once rest target

/-- `GameMap.spawn_fire`: mark every sampled cell as fire.  The sample comes
from `random.sample(WHITE_CELLS, FIRE_AMOUNT)` and is passed explicitly. -/
def spawn_fire (plain : Plain) (sample : List Pos) : Plain :=
  sample.foldl (fun pl c => mark_cell pl c FIRE) plain

/-- What `random.sample(WHITE_CELLS, FIRE_AMOUNT)` can return: `FIRE_AMOUNT`
distinct members of the static pool `WHITE_CELLS`. -/
def valid_sample (sample : List Pos) : Prop :=
  sample.Nodup ∧ sample.length = FIRE_AMOUNT ∧ ∀ c ∈ sample, c ∈ WHITE_CELLS

instance (sample : List Pos) : Decidable (valid_sample sample) := by
  unfold valid_sample; infer_instance

def spawn_key (plain : Plain) (pos : Pos) : Plain := mark_cell plain pos KEY

def clear_key (plain : Plain) : Plain := clear_once plain KEY

def is_fire (plain : Plain) (pos : Pos) : Bool := cellAt plain pos = FIRE

def is_heal (plain : Plain) (pos : Pos) : Bool := cellAt plain pos = HEALTH

def is_key (plain : Plain) (pos : Pos) : Bool := cellAt plain pos = KEY

/-- `GameMap.is_heal_or_key`: the source compares the cell against
`[KEY, HEAL]`, i.e. against 'K' and the ACTION key 'h' — not against the
`HEALTH` marker 'H'. -/
def is_heal_or_key (plain : Plain) (pos : Pos) : Bool :=
  cellAt plain pos ∈ [KEY, HEAL]

def is_finish (plain : Plain) (pos : Pos) : Bool := cellAt plain pos = FINISH

/-- `GameMap.is_valid_move`: inside the grid and the target cell not blocked. -/
def is_valid_move (plain : Plain) (dydx : Pos) (p : Player) : Bool :=
  let posy := p.cur.1 + dydx.1
  let posx := p.cur.2 + dydx.2
  if 0 ≤ posy ∧ posy < (plain.length : Int) ∧
     0 ≤ posx ∧ posx < ((plain.getD 0 []).length : Int) then
    cellAt plain (posy, posx) ≠ BLOCKED
  else false

structure GameState where
  /-- Head of the list is the LEFT end of the deque; `pop` takes the last. -/
  queue : List Player
  plain : Plain
deriving DecidableEq, Repr

inductive StepResult where
  /-- `sys.exit()` from an empty queue: no players left. -/
  | gameOver : StepResult
  /-- `sys.exit()` after a win by the given player. -/
  | won : Player → StepResult
  /-- control reaches the next `Game.__action` with this state. -/
  | next : GameState → StepResult
deriving DecidableEq, Repr

/-- `deque.pop()`: remove and return the rightmost element. -/
def popRight (q : List Player) : Option (Player × List Player) :=
  match q.getLast? with
  | some p => some (p, q.dropLast)
  | none => none

/-- `Game.__drop_key_and_kick_after_death`: respawn the key at the death
position when held, and remove the player's first occurrence from the queue. -/
def drop_key_and_kick (st : GameState) (p : Player) : GameState :=
  { queue := st.queue.erase p
    plain := if p.has_key then spawn_key st.plain p.cur else st.plain }

/-- `Game.__handle_move` together with the check methods it calls.  At each
point where the Python code re-enters `self.__action()`, the turn ends with
the state built so far. -/
def handle_move (st : GameState) (key : Char) (p : Player) : StepResult :=
  let dydx := move key
  -- __check_hit_wall
  if is_valid_move st.plain dydx p = false then
    let pd := p.receive_damage
    if pd.is_alive = false then StepResult.next (drop_key_and_kick st pd)
    else StepResult.next { st with queue := pd :: st.queue }
  -- __check_step_back
  else if p.is_step_back dydx = true ∧ is_heal_or_key st.plain p.cur = false then
    StepResult.next st
  else
    let pm := p.move dydx
    -- __check_other_players_on_cell only logs
    -- __check_step_on_fire
    if is_fire st.plain pm.cur = true then
      let pf := pm.receive_damage
      if pf.is_alive = false then StepResult.next (drop_key_and_kick st pf)
      else StepResult.next { st with queue := pf :: st.queue }
    -- __check_cell_has_key only logs, then requeues at the left end
    else if is_key st.plain pm.cur = true then
      StepResult.next { st with queue := pm :: st.queue }
    -- __check_cell_is_heal
    else if is_heal st.plain pm.cur = true then
      StepResult.next { st with queue := pm.restore_health :: st.queue }
    -- __check_finish
    else if is_finish st.plain pm.cur = true then
      if pm.has_key = true then StepResult.won pm
      else StepResult.next (drop_key_and_kick st pm)
    else
      StepResult.next { st with queue := pm :: st.queue }

/-- `Game.__handle_heal`. -/
def handle_heal (st : GameState) (p : Player) : StepResult :=
  if p.can_heal = true then StepResult.next { st with queue := p.heal :: st.queue }
  else StepResult.next { st with queue := st.queue ++ [p] }

/-- `Game.__handle_key`. -/
def handle_key (st : GameState) (p : Player) : StepResult :=
  if is_key st.plain p.cur = true then
    StepResult.next { queue := p.assign_key :: st.queue, plain := clear_key st.plain }
  else StepResult.next { st with queue := st.queue ++ [p] }

/-- `Game.__handle_fight`: a damage pass over the queue, then the dead are
kicked in order, then the acting player is put back at the left end. -/
def handle_fight (st : GameState) (p : Player) : StepResult :=
  let q := st.queue.map (fun o => if o.cur = p.cur then o.receive_damage else o)
  let killed := q.filter (fun o => o.cur = p.cur && o.is_alive = false)
  let stAfter := killed.foldl drop_key_and_kick { st with queue := q }
  StepResult.next { stAfter with queue := p :: stAfter.queue }

/-- `Game.__handle_save`: the file write has no effect on engine state; the
player is put back at the RIGHT end (popped again next). -/
def handle_save (st : GameState) (p : Player) : StepResult :=
  StepResult.next { st with queue := st.queue ++ [p] }

/-- The key dispatch of `Game.__action`, applied after the pop: `st1` is the
state holding the remaining queue and the freshly respawned fire. -/
def stepDispatch (st1 : GameState) (key : Char) (player : Player) : StepResult :=
  if key = SAVE then handle_save st1 player
  else if key ∈ [UP, DOWN, LEFT, RIGHT] then handle_move st1 key player
  else if key = HEAL then handle_heal st1 player
  else if key = TAKE then handle_key st1 player
  else if key = FIGHT then handle_fight st1 player
  else StepResult.next { st1 with queue := st1.queue ++ [player] }

/-- One resolved turn of `Game.__action`: exit on empty queue, otherwise clear
and respawn fire, pop the rightmost player, and dispatch on the input key. -/
def step (st : GameState) (sample : List Pos) (key : Char) : StepResult :=
  if st.queue.isEmpty then StepResult.gameOver
  else
    match popRight st.queue with
    | none => StepResult.gameOver
    | some (player, rest) =>
      stepDispatch { queue := rest, plain := spawn_fire (clear_fire st.plain) sample }
        key player

/-- A fresh `Player(name=...)` as created in `Game.__start`. -/
def freshPlayer (name : String) : Player :=
  mkPlayer name none none none none none

/-- `Game.__start`: each entered player is `appendleft`-ed, so the first
entered name ends at the right end and acts first. -/
def initialState (names : List String) : GameState :=
  { queue := names.foldl (fun q n => freshPlayer n :: q) []
    plain := INITIAL_PLAIN }

/-- Run a list of turns, each given its fire sample and input key; `none` when
some turn terminates the process. -/
def runTurns (st : GameState) : List (List Pos × Char) → Option GameState
  | [] => some st
  | (sample, key) :: rest =>
    match step st sample key with
    | StepResult.next st1 => runTurns st1 rest
    | _ => none

/-- States reachable by the engine from a fresh start with distinct player
names, through turns whose fire samples the rng could produce. -/
inductive Reachable : GameState → Prop
  | init (names : List String) (h : names.Nodup) : Reachable (initialState names)
  | step (st : GameState) (sample : List Pos) (key : Char) (st1 : GameState)
      (h : Reachable st) (hs : valid_sample sample)
      (he : step st sample key = StepResult.next st1) : Reachable st1

/-! ### Analysis helpers for the grid -/

/-- The dimensions of the game's grid: 4 rows of 8 cells. -/
def Shape (pl : Plain) : Prop := pl.length = 4 ∧ ∀ row ∈ pl, row.length = 8

/-- `pos` denotes an actual cell of `pl`. -/
def inBounds (pl : Plain) (pos : Pos) : Prop :=
  0 ≤ pos.1 ∧ pos.1 < (pl.length : Int) ∧
  0 ≤ pos.2 ∧ pos.2 < ((pl.getD pos.1.toNat []).length : Int)

instance (pl : Plain) : Decidable (Shape pl) := by
  unfold Shape; infer_instance

instance (pl : Plain) (pos : Pos) : Decidable (inBounds pl pos) := by
  unfold inBounds; infer_instance

/-- Row-major list of all coordinates of `pl`. -/
def allCoords (pl : Plain) : List Pos :=
  (List.range pl.length).flatMap (fun (r : Nat) =>
    (List.range ((pl.getD r []).length)).map
      (fun (x : Nat) => ((r : Int), (x : Int))))

/-- Row-major list of the coordinates of all cells of `pl` marked `c`. -/
def cells_with (pl : Plain) (c : Char) : List Pos :=
  (allCoords pl).filter (fun pos => decide (cellAt pl pos = c))

lemma getD_map_rows (f : List Char → List Char) (hf : f [] = []) (pl : Plain) (y : Nat) :
    (pl.map f).getD y [] = f (pl.getD y []) := by
  simp only [List.getD_eq_getElem?_getD, List.getElem?_map]
  cases pl[y]? <;> simp [hf]

lemma getD_map_chars (g : Char → Char) (d : Char) (hg : g d = d) (row : List Char) (x : Nat) :
    (row.map g).getD x d = g (row.getD x d) := by
  simp only [List.getD_eq_getElem?_getD, List.getElem?_map]
  cases row[x]? <;> simp [hg]

lemma getD_set_rows (pl : Plain) (i j : Nat) (row : List Char) :
    (pl.set i row).getD j [] =
      if i = j ∧ i < pl.length then row else pl.getD j [] := by
  simp only [List.getD_eq_getElem?_getD, List.getElem?_set]
  by_cases h : i = j
  · subst h
    by_cases hl : i < pl.length
    · simp [hl]
    · simp [hl, List.getElem?_eq_none (Nat.le_of_not_lt hl)]
  · simp [h]

lemma getD_set_chars (row : List Char) (i j : Nat) (c : Char) :
    (row.set i c).getD j FREE =
      if i = j ∧ i < row.length then c else row.getD j FREE := by
  simp only [List.getD_eq_getElem?_getD, List.getElem?_set]
  by_cases h : i = j
  · subst h
    by_cases hl : i < row.length
    · simp [hl]
    · simp [hl, List.getElem?_eq_none (Nat.le_of_not_lt hl)]
  · simp [h]

lemma cellAt_clear_fire (pl : Plain) (pos : Pos) :
    cellAt (clear_fire pl) pos =
      if cellAt pl pos = FIRE then FREE else cellAt pl pos := by
  unfold cellAt clear_fire
  by_cases h : 0 ≤ pos.1 ∧ 0 ≤ pos.2
  · simp only [if_pos h]
    rw [getD_map_rows clear_fire_row rfl]
    unfold clear_fire_row
    rw [getD_map_chars _ _ (by decide)]
  · simp only [if_neg h]
    have : FREE ≠ FIRE := by decide
    simp [this]

lemma cellAt_mark_self (pl : Plain) (pos : Pos) (c : Char) (h : inBounds pl pos) :
    cellAt (mark_cell pl pos c) pos = c := by
  obtain ⟨h1, h2, h3, h4⟩ := h
  have hy : pos.1.toNat < pl.length := by omega
  have hx : pos.2.toNat < (pl.getD pos.1.toNat []).length := by omega
  have hpos : 0 ≤ pos.1 ∧ 0 ≤ pos.2 := ⟨h1, h3⟩
  unfold cellAt mark_cell
  rw [if_pos hpos, if_pos hpos, getD_set_rows,
      if_pos (⟨rfl, hy⟩ : pos.1.toNat = pos.1.toNat ∧ pos.1.toNat < pl.length),
      getD_set_chars,
      if_pos (⟨rfl, hx⟩ :
        pos.2.toNat = pos.2.toNat ∧ pos.2.toNat < (pl.getD pos.1.toNat []).length)]

lemma cellAt_mark_other (pl : Plain) (pos pos' : Pos) (c : Char) (h : pos' ≠ pos) :
    cellAt (mark_cell pl pos c) pos' = cellAt pl pos' := by
  unfold mark_cell
  by_cases hw : 0 ≤ pos.1 ∧ 0 ≤ pos.2
  · simp only [if_pos hw]
    unfold cellAt
    by_cases hr : 0 ≤ pos'.1 ∧ 0 ≤ pos'.2
    · rw [if_pos hr, getD_set_rows]
      by_cases hy : pos.1.toNat = pos'.1.toNat ∧ pos.1.toNat < pl.length
      · obtain ⟨hy1, hy2⟩ := hy
        have hyy : pos'.1 = pos.1 := by omega
        have hxx : pos'.2 ≠ pos.2 := fun hc => h (Prod.ext hyy hc)
        have hxn : pos.2.toNat ≠ pos'.2.toNat := by omega
        rw [if_pos (⟨hy1, hy2⟩ :
              pos.1.toNat = pos'.1.toNat ∧ pos.1.toNat < pl.length),
            getD_set_chars,
            if_neg (fun hc => hxn hc.1 :
              ¬(pos.2.toNat = pos'.2.toNat ∧
                pos.2.toNat < (pl.getD pos.1.toNat []).length)), hy1, if_pos hr]
      · rw [if_neg hy, if_pos hr]
    · rw [if_neg hr, if_neg hr]
  · rw [if_neg hw]

lemma length_clear_fire (pl : Plain) : (clear_fire pl).length = pl.length := by
  simp [clear_fire]

lemma shape_clear_fire (pl : Plain) (h : Shape pl) : Shape (clear_fire pl) := by
  obtain ⟨h1, h2⟩ := h
  refine ⟨by simp [clear_fire, h1], ?_⟩
  intro row hrow
  simp only [clear_fire, List.mem_map] at hrow
  obtain ⟨r, hr, rfl⟩ := hrow
  simp [clear_fire_row, h2 r hr]

lemma shape_mark_cell (pl : Plain) (pos : Pos) (c : Char) (h : Shape pl) :
    Shape (mark_cell pl pos c) := by
  obtain ⟨h1, h2⟩ := h
  unfold mark_cell
  by_cases hw : 0 ≤ pos.1 ∧ 0 ≤ pos.2
  · simp only [if_pos hw]
    by_cases hlt : pos.1.toNat < pl.length
    · refine ⟨by simp [h1], ?_⟩
      intro row hrow
      rcases List.mem_or_eq_of_mem_set hrow with hmem | rfl
      · exact h2 row hmem
      · rw [List.length_set]
        exact h2 _ (List.getD_eq_getElem pl [] hlt ▸ List.getElem_mem hlt)
    · rw [List.set_eq_of_length_le (Nat.le_of_not_lt hlt)]
      exact ⟨h1, h2⟩
  · simp only [if_neg hw]
    exact ⟨h1, h2⟩

lemma shape_spawn_fire (sample : List Pos) (pl : Plain) (h : Shape pl) :
    Shape (spawn_fire pl sample) := by
  induction sample generalizing pl with
  | nil => exact h
  | cons c rest ih => exact ih _ (shape_mark_cell pl c FIRE h)

lemma white_cells_bounds :
    ∀ pos ∈ WHITE_CELLS, 0 ≤ pos.1 ∧ pos.1 < 4 ∧ 0 ≤ pos.2 ∧ pos.2 < 8 := by
  decide

lemma inBounds_of_shape (pl : Plain) (pos : Pos) (h : Shape pl)
    (hb : 0 ≤ pos.1 ∧ pos.1 < 4 ∧ 0 ≤ pos.2 ∧ pos.2 < 8) : inBounds pl pos := by
  obtain ⟨h1, h2⟩ := h
  have hlt : pos.1.toNat < pl.length := by omega
  have hrow : (pl.getD pos.1.toNat []).length = 8 :=
    h2 _ (List.getD_eq_getElem pl [] hlt ▸ List.getElem_mem hlt)
  unfold inBounds
  rw [hrow]
  refine ⟨hb.1, by omega, hb.2.2.1, by omega⟩

lemma inBounds_of_white (pl : Plain) (pos : Pos) (h : Shape pl)
    (hw : pos ∈ WHITE_CELLS) : inBounds pl pos :=
  inBounds_of_shape pl pos h (white_cells_bounds pos hw)

lemma cellAt_spawn_fire (sample : List Pos) (pl : Plain) (pos : Pos)
    (hsh : Shape pl) (hsub : ∀ c ∈ sample, c ∈ WHITE_CELLS) :
    cellAt (spawn_fire pl sample) pos =
      if pos ∈ sample then FIRE else cellAt pl pos := by
  induction sample generalizing pl with
  | nil => simp [spawn_fire]
  | cons c rest ih =>
    have hstep : spawn_fire pl (c :: rest) = spawn_fire (mark_cell pl c FIRE) rest := rfl
    rw [hstep, ih (mark_cell pl c FIRE) (shape_mark_cell pl c FIRE hsh)
        (fun d hd => hsub d (List.mem_cons_of_mem c hd))]
    by_cases hc : pos = c
    · subst hc
      have hin : inBounds pl pos := inBounds_of_white pl pos hsh (hsub pos (by simp))
      by_cases hrest : pos ∈ rest
      · simp [hrest]
      · simp [hrest, cellAt_mark_self pl pos FIRE hin]
    · rw [cellAt_mark_other pl c pos FIRE hc]
      by_cases hrest : pos ∈ rest
      · simp [hrest, hc]
      · simp [hrest, hc]

lemma cellAt_clear_fire_ne (pl : Plain) (pos : Pos) :
    cellAt (clear_fire pl) pos ≠ FIRE := by
  rw [cellAt_clear_fire]
  by_cases h : cellAt pl pos = FIRE
  · simp only [if_pos h]; decide
  · simp [h]

lemma nodup_allCoords (pl : Plain) : (allCoords pl).Nodup := by
  unfold allCoords
  rw [List.nodup_flatMap]
  constructor
  · intro r _
    refine List.Nodup.map ?_ (List.nodup_range _)
    intro a b hab
    have hs := congrArg Prod.snd hab
    simpa using hs
  · refine (List.pairwise_lt_range pl.length).imp ?_
    intro a b hab x hxa hxb
    simp only [List.mem_map, List.mem_range] at hxa hxb
    obtain ⟨xa, _, rfl⟩ := hxa
    obtain ⟨xb, _, heq⟩ := hxb
    have hfst : (b : Int) = (a : Int) := congrArg Prod.fst heq
    omega

lemma mem_allCoords (pl : Plain) (pos : Pos) :
    pos ∈ allCoords pl ↔
      ∃ r x : Nat, r < pl.length ∧ x < (pl.getD r []).length ∧
        pos = ((r : Int), (x : Int)) := by
  unfold allCoords
  simp only [List.mem_flatMap, List.mem_map, List.mem_range]
  constructor
  · rintro ⟨r, hr, x, hx, rfl⟩
    exact ⟨r, x, hr, hx, rfl⟩
  · rintro ⟨r, x, hr, hx, rfl⟩
    exact ⟨r, hr, x, hx, rfl⟩

lemma inBounds_mem_allCoords (pl : Plain) (pos : Pos) (hin : inBounds pl pos) :
    pos ∈ allCoords pl := by
  rw [mem_allCoords]
  obtain ⟨h1, h2, h3, h4⟩ := hin
  refine ⟨pos.1.toNat, pos.2.toNat, by omega, ?_, ?_⟩
  · omega
  · exact Prod.ext (by omega) (by omega)

lemma mem_cells_with (pl : Plain) (c : Char) (pos : Pos) :
    pos ∈ cells_with pl c ↔ pos ∈ allCoords pl ∧ cellAt pl pos = c := by
  unfold cells_with
  simp [List.mem_filter]

lemma length_filter_of_sub {l s : List Pos} (hl : l.Nodup) (hs : s.Nodup)
    (hsub : ∀ p ∈ s, p ∈ l) :
    (l.filter (fun p => decide (p ∈ s))).length = s.length := by
  have hn : (l.filter (fun p => decide (p ∈ s))).Nodup := hl.filter _
  have ht : (l.filter (fun p => decide (p ∈ s))).toFinset = s.toFinset := by
    ext q
    simp only [List.mem_toFinset, List.mem_filter, decide_eq_true_eq]
    constructor
    · rintro ⟨_, hq⟩
      exact hq
    · intro hq
      exact ⟨hsub q hq, hq⟩
  rw [← List.toFinset_card_of_nodup hn, ht, List.toFinset_card_of_nodup hs]

lemma cellAt_respawn (pl : Plain) (sample : List Pos) (pos : Pos)
    (hsub : ∀ c ∈ sample, c ∈ WHITE_CELLS) (hsh : Shape pl) :
    cellAt (spawn_fire (clear_fire pl) sample) pos =
      if pos ∈ sample then FIRE
      else if cellAt pl pos = FIRE then FREE else cellAt pl pos := by
  rw [cellAt_spawn_fire sample _ pos (shape_clear_fire pl hsh) hsub,
      cellAt_clear_fire]

lemma cellAt_respawn_iff (pl : Plain) (sample : List Pos) (pos : Pos)
    (hsub : ∀ c ∈ sample, c ∈ WHITE_CELLS) (hsh : Shape pl) :
    cellAt (spawn_fire (clear_fire pl) sample) pos = FIRE ↔ pos ∈ sample := by
  rw [cellAt_spawn_fire sample _ pos (shape_clear_fire pl hsh) hsub]
  by_cases hmem : pos ∈ sample
  · simp [hmem]
  · simp only [if_neg hmem]
    exact ⟨fun hc => absurd hc (cellAt_clear_fire_ne pl pos), fun hc => absurd hc hmem⟩

/-! ### Queue and turn-engine lemmas -/

lemma popRight_concat (rest : List Player) (p : Player) :
    popRight (rest ++ [p]) = some (p, rest) := by
  unfold popRight
  rw [List.getLast?_concat, List.dropLast_concat]

lemma popRight_eq (q : List Player) (p : Player) (rest : List Player)
    (h : popRight q = some (p, rest)) : q = rest ++ [p] := by
  unfold popRight at h
  cases hl : q.getLast? with
  | none =>
      simp only [hl] at h
      exact Option.noConfusion h
  | some x =>
    simp only [hl] at h
    injection h with h2
    injection h2 with hx hrest
    have hne : q ≠ [] := by
      intro hq
      rw [hq] at hl
      cases hl
    have hgl : q.getLast hne = p := by
      have h3 := List.getLast?_eq_getLast q hne
      rw [hl] at h3
      rw [← hx]
      exact (Option.some.inj h3).symm
    rw [← hrest, ← hgl]
    exact (List.dropLast_concat_getLast hne).symm

@[simp] lemma name_receive_damage (p : Player) : p.receive_damage.name = p.name := rfl

@[simp] lemma name_restore_health (p : Player) : p.restore_health.name = p.name := rfl

@[simp] lemma name_heal (p : Player) : p.heal.name = p.name := rfl

@[simp] lemma name_assign_key (p : Player) : p.assign_key.name = p.name := rfl

@[simp] lemma name_drop_key (p : Player) : p.drop_key.name = p.name := rfl

@[simp] lemma name_player_move (p : Player) (d : Pos) : (p.move d).name = p.name := rfl

@[simp] lemma name_freshPlayer (n : String) : (freshPlayer n).name = n := rfl

lemma names_drop_sublist (st : GameState) (p : Player) :
    ((drop_key_and_kick st p).queue.map Player.name).Sublist
      (st.queue.map Player.name) :=
  List.Sublist.map Player.name (List.erase_sublist p st.queue)

lemma names_fold_drop_sublist (killed : List Player) (s : GameState) :
    ((killed.foldl drop_key_and_kick s).queue.map Player.name).Sublist
      (s.queue.map Player.name) := by
  induction killed generalizing s with
  | nil => exact List.Sublist.refl _
  | cons k ks ih => exact (ih (drop_key_and_kick s k)).trans (names_drop_sublist s k)

lemma names_map_damage (q : List Player) (p : Player) :
    (q.map (fun o => if o.cur = p.cur then o.receive_damage else o)).map Player.name =
      q.map Player.name := by
  rw [List.map_map]
  apply List.map_congr_left
  intro o _
  by_cases h : o.cur = p.cur <;> simp [h, Function.comp]

lemma nodup_concat_iff (q : List Player) (p : Player) :
    ((q ++ [p]).map Player.name).Nodup ↔
      p.name ∉ q.map Player.name ∧ (q.map Player.name).Nodup := by
  simp only [List.map_append, List.map_cons, List.map_nil]
  rw [(List.perm_append_singleton p.name (q.map Player.name)).nodup_iff]
  exact List.nodup_cons

lemma names_nodup_cons (q : List Player) (p : Player)
    (hq : (q.map Player.name).Nodup) (hp : p.name ∉ q.map Player.name) :
    ((p :: q).map Player.name).Nodup := by
  rw [List.map_cons]
  exact List.nodup_cons.mpr ⟨hp, hq⟩

lemma names_handle_move (st : GameState) (key : Char) (p : Player) (st1 : GameState)
    (he : handle_move st key p = StepResult.next st1)
    (hq : (st.queue.map Player.name).Nodup) (hp : p.name ∉ st.queue.map Player.name) :
    (st1.queue.map Player.name).Nodup := by
  simp only [handle_move] at he
  split at he
  · split at he
    · cases he
      exact hq.sublist (names_drop_sublist st p.receive_damage)
    · cases he
      exact names_nodup_cons _ _ hq (by simpa using hp)
  · split at he
    · cases he
      exact hq
    · split at he
      · split at he
        · cases he
          exact hq.sublist (names_drop_sublist st _)
        · cases he
          exact names_nodup_cons _ _ hq (by simpa using hp)
      · split at he
        · cases he
          exact names_nodup_cons _ _ hq (by simpa using hp)
        · split at he
          · cases he
            exact names_nodup_cons _ _ hq (by simpa using hp)
          · split at he
            · split at he
              · cases he
              · cases he
                exact hq.sublist (names_drop_sublist st _)
            · cases he
              exact names_nodup_cons _ _ hq (by simpa using hp)

lemma names_handle_heal (st : GameState) (p : Player) (st1 : GameState)
    (he : handle_heal st p = StepResult.next st1)
    (hq : (st.queue.map Player.name).Nodup) (hp : p.name ∉ st.queue.map Player.name) :
    (st1.queue.map Player.name).Nodup := by
  simp only [handle_heal] at he
  split at he
  · cases he
    exact names_nodup_cons _ _ hq (by simpa using hp)
  · cases he
    exact (nodup_concat_iff _ _).mpr ⟨hp, hq⟩

lemma names_handle_key (st : GameState) (p : Player) (st1 : GameState)
    (he : handle_key st p = StepResult.next st1)
    (hq : (st.queue.map Player.name).Nodup) (hp : p.name ∉ st.queue.map Player.name) :
    (st1.queue.map Player.name).Nodup := by
  simp only [handle_key] at he
  split at he
  · cases he
    exact names_nodup_cons _ _ hq (by simpa using hp)
  · cases he
    exact (nodup_concat_iff _ _).mpr ⟨hp, hq⟩

lemma names_handle_fight (st : GameState) (p : Player) (st1 : GameState)
    (he : handle_fight st p = StepResult.next st1)
    (hq : (st.queue.map Player.name).Nodup) (hp : p.name ∉ st.queue.map Player.name) :
    (st1.queue.map Player.name).Nodup := by
  simp only [handle_fight] at he
  cases he
  have hsub := names_fold_drop_sublist
    ((st.queue.map (fun o => if o.cur = p.cur then o.receive_damage else o)).filter
      (fun o => o.cur = p.cur && o.is_alive = false))
    { st with queue :=
        st.queue.map (fun o => if o.cur = p.cur then o.receive_damage else o) }
  rw [names_map_damage st.queue p] at hsub
  refine names_nodup_cons _ _ (hq.sublist hsub) ?_
  intro hmem
  exact hp (hsub.mem hmem)

lemma names_handle_save (st : GameState) (p : Player) (st1 : GameState)
    (he : handle_save st p = StepResult.next st1)
    (hq : (st.queue.map Player.name).Nodup) (hp : p.name ∉ st.queue.map Player.name) :
    (st1.queue.map Player.name).Nodup := by
  simp only [handle_save] at he
  cases he
  exact (nodup_concat_iff _ _).mpr ⟨hp, hq⟩

lemma names_stepDispatch (st1 : GameState) (key : Char) (p : Player) (st2 : GameState)
    (he : stepDispatch st1 key p = StepResult.next st2)
    (hq : (st1.queue.map Player.name).Nodup) (hp : p.name ∉ st1.queue.map Player.name) :
    (st2.queue.map Player.name).Nodup := by
  simp only [stepDispatch] at he
  split at he
  · exact names_handle_save _ _ _ he hq hp
  · split at he
    · exact names_handle_move _ _ _ _ he hq hp
    · split at he
      · exact names_handle_heal _ _ _ he hq hp
      · split at he
        · exact names_handle_key _ _ _ he hq hp
        · split at he
          · exact names_handle_fight _ _ _ he hq hp
          · cases he
            exact (nodup_concat_iff _ _).mpr ⟨hp, hq⟩

lemma step_preserves_names_nodup (st : GameState) (sample : List Pos) (key : Char)
    (st1 : GameState) (he : step st sample key = StepResult.next st1)
    (hn : (st.queue.map Player.name).Nodup) : (st1.queue.map Player.name).Nodup := by
  unfold step at he
  split at he
  · cases he
  · cases hpop : popRight st.queue with
    | none =>
        simp only [hpop] at he
        exact StepResult.noConfusion he
    | some pr =>
      obtain ⟨p, rest⟩ := pr
      simp only [hpop] at he
      have hqe : st.queue = rest ++ [p] := popRight_eq _ _ _ hpop
      rw [hqe] at hn
      exact names_stepDispatch _ _ _ _ he
        ((nodup_concat_iff rest p).mp hn).2 ((nodup_concat_iff rest p).mp hn).1

lemma foldl_cons_eq (f : String → Player) (ns : List String) (acc : List Player) :
    ns.foldl (fun q n => f n :: q) acc = (ns.map f).reverse ++ acc := by
  induction ns generalizing acc with
  | nil => simp
  | cons n rest ih => simp [ih]

lemma initialState_queue (names : List String) :
    (initialState names).queue = (names.map freshPlayer).reverse := by
  unfold initialState
  rw [foldl_cons_eq]
  simp

lemma reachable_names_nodup (st : GameState) (h : Reachable st) :
    (st.queue.map Player.name).Nodup := by
  induction h with
  | init names hn =>
      rw [initialState_queue]
      rw [← List.map_reverse, List.map_map]
      have : (Player.name ∘ freshPlayer) = id := by
        funext n
        rfl
      rw [this, List.map_id, List.nodup_reverse]
      exact hn
  | step st sample key st1 hst hs he ih =>
      exact step_preserves_names_nodup st sample key st1 he ih

lemma runTurns_reachable (tr : List (List Pos × Char)) :
    ∀ st st1 : GameState, Reachable st → (∀ t ∈ tr, valid_sample t.1) →
      runTurns st tr = some st1 → Reachable st1 := by
  induction tr with
  | nil =>
      intro st st1 hst _ hr
      simp only [runTurns] at hr
      cases hr
      exact hst
  | cons t rest ih =>
      intro st st1 hst hv hr
      obtain ⟨sample, key⟩ := t
      simp only [runTurns] at hr
      cases hstep : step st sample key with
      | gameOver => rw [hstep] at hr; cases hr
      | won p => rw [hstep] at hr; cases hr
      | next st2 =>
          rw [hstep] at hr
          exact ih st2 st1
            (Reachable.step st sample key st2 hst (hv (sample, key) (by simp)) hstep)
            (fun u hu => hv u (List.mem_cons_of_mem _ hu)) hr

@[simp] lemma has_key_receive_damage (p : Player) :
    p.receive_damage.has_key = p.has_key := rfl

@[simp] lemma has_key_restore_health (p : Player) :
    p.restore_health.has_key = p.has_key := rfl

@[simp] lemma has_key_heal (p : Player) : p.heal.has_key = p.has_key := rfl

@[simp] lemma has_key_player_move (p : Player) (d : Pos) :
    (p.move d).has_key = p.has_key := rfl

@[simp] lemma has_key_assign_key (p : Player) : p.assign_key.has_key = true := rfl

/-- A state with no key on the map and no key-holding player. -/
def KeylessState (st : GameState) : Prop :=
  (∀ p ∈ st.queue, p.has_key = false) ∧ ∀ pos : Pos, cellAt st.plain pos ≠ KEY

lemma cellAt_mark_cell_cases (pl : Plain) (pos pos' : Pos) (c : Char) :
    cellAt (mark_cell pl pos c) pos' = c ∨
      cellAt (mark_cell pl pos c) pos' = cellAt pl pos' := by
  by_cases h : pos' = pos
  · subst h
    by_cases hin : inBounds pl pos'
    · exact Or.inl (cellAt_mark_self pl pos' c hin)
    · right
      unfold mark_cell
      by_cases hw : 0 ≤ pos'.1 ∧ 0 ≤ pos'.2
      · rw [if_pos hw]
        unfold cellAt
        rw [if_pos hw, if_pos hw, getD_set_rows]
        by_cases hy : pos'.1.toNat = pos'.1.toNat ∧ pos'.1.toNat < pl.length
        · rw [if_pos hy, getD_set_chars]
          have hx : ¬(pos'.2.toNat = pos'.2.toNat ∧
              pos'.2.toNat < (pl.getD pos'.1.toNat []).length) := by
            intro hc
            apply hin
            exact ⟨hw.1, by omega, hw.2, by omega⟩
          rw [if_neg hx]
        · rw [if_neg hy]
      · rw [if_neg hw]
  · exact Or.inr (cellAt_mark_other pl pos pos' c h)

lemma no_key_spawn_fire (pl : Plain) (sample : List Pos) (pos : Pos)
    (h : ∀ q : Pos, cellAt pl q ≠ KEY) :
    cellAt (spawn_fire pl sample) pos ≠ KEY := by
  induction sample generalizing pl with
  | nil => exact h pos
  | cons c rest ih =>
    have hstep : spawn_fire pl (c :: rest) = spawn_fire (mark_cell pl c FIRE) rest := rfl
    rw [hstep]
    refine ih (mark_cell pl c FIRE) ?_
    intro q
    rcases cellAt_mark_cell_cases pl c q FIRE with hc | hc
    · rw [hc]; decide
    · rw [hc]; exact h q

lemma no_key_clear_fire (pl : Plain) (pos : Pos)
    (h : ∀ q : Pos, cellAt pl q ≠ KEY) : cellAt (clear_fire pl) pos ≠ KEY := by
  rw [cellAt_clear_fire]
  by_cases hc : cellAt pl pos = FIRE
  · rw [if_pos hc]; decide
  · rw [if_neg hc]; exact h pos

lemma no_key_respawn (pl : Plain) (sample : List Pos)
    (h : ∀ q : Pos, cellAt pl q ≠ KEY) :
    ∀ pos : Pos, cellAt (spawn_fire (clear_fire pl) sample) pos ≠ KEY :=
  fun pos => no_key_spawn_fire (clear_fire pl) sample pos
    (fun q => no_key_clear_fire pl q h)

/-- The keyless property transported through a step result: a won outcome is
impossible, a continuing state is again keyless. -/
def KeylessResult : StepResult → Prop
  | StepResult.next st => KeylessState st
  | StepResult.won _ => False
  | StepResult.gameOver => True

lemma forall_cons_has_key (q : List Player) (x : Player)
    (hq : ∀ o ∈ q, o.has_key = false) (hx : x.has_key = false) :
    ∀ o ∈ x :: q, o.has_key = false := by
  intro o ho
  rcases List.mem_cons.mp ho with rfl | hmem
  · exact hx
  · exact hq o hmem

lemma forall_append_has_key (q : List Player) (x : Player)
    (hq : ∀ o ∈ q, o.has_key = false) (hx : x.has_key = false) :
    ∀ o ∈ q ++ [x], o.has_key = false := by
  intro o ho
  rcases List.mem_append.mp ho with hmem | hmem
  · exact hq o hmem
  · rw [List.mem_singleton.mp hmem]
    exact hx

lemma keyless_drop (st : GameState) (p : Player)
    (hq : ∀ o ∈ st.queue, o.has_key = false)
    (hpl : ∀ pos : Pos, cellAt st.plain pos ≠ KEY) (hp : p.has_key = false) :
    KeylessState (drop_key_and_kick st p) := by
  unfold drop_key_and_kick KeylessState
  constructor
  · intro o ho
    exact hq o (List.mem_of_mem_erase ho)
  · intro pos
    simp only [hp, Bool.false_eq_true, if_false]
    exact hpl pos

lemma damaged_queue_keyless (q : List Player) (p : Player)
    (hq : ∀ o ∈ q, o.has_key = false) :
    ∀ o ∈ q.map (fun o => if o.cur = p.cur then o.receive_damage else o),
      o.has_key = false := by
  intro o ho
  rcases List.mem_map.mp ho with ⟨x, hx, rfl⟩
  by_cases hc : x.cur = p.cur <;> simp [hc, hq x hx]

lemma keyless_fold_drop (killed : List Player) (s : GameState)
    (hk : ∀ k ∈ killed, k.has_key = false)
    (hq : ∀ o ∈ s.queue, o.has_key = false)
    (hpl : ∀ pos : Pos, cellAt s.plain pos ≠ KEY) :
    KeylessState (killed.foldl drop_key_and_kick s) := by
  induction killed generalizing s with
  | nil => exact ⟨hq, hpl⟩
  | cons k ks ih =>
      have h1 := keyless_drop s k hq hpl (hk k (by simp))
      exact ih (drop_key_and_kick s k) (fun x hx => hk x (by simp [hx])) h1.1 h1.2

lemma keyless_handle_move (st : GameState) (key : Char) (p : Player)
    (hq : ∀ o ∈ st.queue, o.has_key = false)
    (hpl : ∀ pos : Pos, cellAt st.plain pos ≠ KEY) (hp : p.has_key = false) :
    KeylessResult (handle_move st key p) := by
  simp only [handle_move]
  split
  · split
    · exact keyless_drop st _ hq hpl (by simp [hp])
    · exact ⟨forall_cons_has_key _ _ hq (by simp [hp]), hpl⟩
  · split
    · exact ⟨hq, hpl⟩
    · split
      · split
        · exact keyless_drop st _ hq hpl (by simp [hp])
        · exact ⟨forall_cons_has_key _ _ hq (by simp [hp]), hpl⟩
      · split
        · exact ⟨forall_cons_has_key _ _ hq (by simp [hp]), hpl⟩
        · split
          · exact ⟨forall_cons_has_key _ _ hq (by simp [hp]), hpl⟩
          · split
            · split
              · rename_i hwon
                rw [has_key_player_move, hp] at hwon
                exact Bool.noConfusion hwon
              · exact keyless_drop st _ hq hpl (by simp [hp])
            · exact ⟨forall_cons_has_key _ _ hq (by simp [hp]), hpl⟩

lemma keyless_handle_heal (st : GameState) (p : Player)
    (hq : ∀ o ∈ st.queue, o.has_key = false)
    (hpl : ∀ pos : Pos, cellAt st.plain pos ≠ KEY) (hp : p.has_key = false) :
    KeylessResult (handle_heal st p) := by
  simp only [handle_heal]
  split
  · exact ⟨forall_cons_has_key _ _ hq (by simp [hp]), hpl⟩
  · exact ⟨forall_append_has_key _ _ hq hp, hpl⟩

lemma keyless_handle_key (st : GameState) (p : Player)
    (hq : ∀ o ∈ st.queue, o.has_key = false)
    (hpl : ∀ pos : Pos, cellAt st.plain pos ≠ KEY) (hp : p.has_key = false) :
    KeylessResult (handle_key st p) := by
  simp only [handle_key]
  split
  · rename_i hcond
    simp only [is_key, decide_eq_true_eq] at hcond
    exact absurd hcond (hpl p.cur)
  · exact ⟨forall_append_has_key _ _ hq hp, hpl⟩

lemma keyless_handle_fight (st : GameState) (p : Player)
    (hq : ∀ o ∈ st.queue, o.has_key = false)
    (hpl : ∀ pos : Pos, cellAt st.plain pos ≠ KEY) (hp : p.has_key = false) :
    KeylessResult (handle_fight st p) := by
  simp only [handle_fight]
  have hmap := damaged_queue_keyless st.queue p hq
  have hfold := keyless_fold_drop
    ((st.queue.map (fun o => if o.cur = p.cur then o.receive_damage else o)).filter
      (fun o => o.cur = p.cur && o.is_alive = false))
    { st with queue := st.queue.map (fun o => if o.cur = p.cur then o.receive_damage else o) }
    (fun k hk => hmap k (List.mem_of_mem_filter hk)) hmap hpl
  exact ⟨forall_cons_has_key _ _ hfold.1 hp, hfold.2⟩

lemma keyless_handle_save (st : GameState) (p : Player)
    (hq : ∀ o ∈ st.queue, o.has_key = false)
    (hpl : ∀ pos : Pos, cellAt st.plain pos ≠ KEY) (hp : p.has_key = false) :
    KeylessResult (handle_save st p) := by
  simp only [handle_save]
  exact ⟨forall_append_has_key _ _ hq hp, hpl⟩

lemma keyless_stepDispatch (st1 : GameState) (key : Char) (p : Player)
    (hq : ∀ o ∈ st1.queue, o.has_key = false)
    (hpl : ∀ pos : Pos, cellAt st1.plain pos ≠ KEY) (hp : p.has_key = false) :
    KeylessResult (stepDispatch st1 key p) := by
  simp only [stepDispatch]
  split
  · exact keyless_handle_save st1 p hq hpl hp
  · split
    · exact keyless_handle_move st1 key p hq hpl hp
    · split
      · exact keyless_handle_heal st1 p hq hpl hp
      · split
        · exact keyless_handle_key st1 p hq hpl hp
        · split
          · exact keyless_handle_fight st1 p hq hpl hp
          · exact ⟨forall_append_has_key _ _ hq hp, hpl⟩

lemma keyless_step (st : GameState) (sample : List Pos) (key : Char)
    (h : KeylessState st) : KeylessResult (step st sample key) := by
  obtain ⟨hq, hpl⟩ := h
  unfold step
  split
  · trivial
  · cases hpop : popRight st.queue with
    | none => trivial
    | some pr =>
      obtain ⟨p, rest⟩ := pr
      have hqe : st.queue = rest ++ [p] := popRight_eq _ _ _ hpop
      refine keyless_stepDispatch _ key p ?_ ?_ ?_
      · intro o ho
        exact hq o (by rw [hqe]; exact List.mem_append_left _ ho)
      · exact no_key_respawn st.plain sample hpl
      · exact hq p (by rw [hqe]; exact List.mem_append_right _ (by simp))

lemma length_fire_after_respawn (pl : Plain) (sample : List Pos)
    (hsh : Shape pl) (hv : valid_sample sample) :
    (cells_with (spawn_fire (clear_fire pl) sample) FIRE).length = FIRE_AMOUNT := by
  obtain ⟨hnd, hlen, hsub⟩ := hv
  have hshr : Shape (spawn_fire (clear_fire pl) sample) :=
    shape_spawn_fire _ _ (shape_clear_fire pl hsh)
  have hfe : cells_with (spawn_fire (clear_fire pl) sample) FIRE =
      (allCoords (spawn_fire (clear_fire pl) sample)).filter
        (fun p => decide (p ∈ sample)) := by
    unfold cells_with
    apply List.filter_congr
    intro x _
    exact decide_eq_decide.mpr (cellAt_respawn_iff pl sample x hsub hsh)
  rw [hfe, length_filter_of_sub (nodup_allCoords _) hnd
        (fun p hp => inBounds_mem_allCoords _ p
          (inBounds_of_white _ p hshr (hsub p hp))), hlen]

lemma isEmpty_concat (rest : List Player) (p : Player) :
    (rest ++ [p]).isEmpty = false := by
  cases rest <;> rfl

lemma step_queue_concat (st : GameState) (sample : List Pos) (key : Char)
    (p : Player) (rest : List Player) (hq : st.queue = rest ++ [p]) :
    step st sample key =
      stepDispatch { queue := rest, plain := spawn_fire (clear_fire st.plain) sample }
        key p := by
  simp only [step, hq, isEmpty_concat, Bool.false_eq_true, if_false, popRight_concat]

lemma stepDispatch_move (st1 : GameState) (key : Char) (p : Player)
    (hdir : key ∈ [UP, DOWN, LEFT, RIGHT]) :
    stepDispatch st1 key p = handle_move st1 key p := by
  fin_cases hdir <;>
    · unfold stepDispatch
      rw [if_neg (by decide), if_pos (by decide)]

lemma stepDispatch_invalid (st1 : GameState) (key : Char) (p : Player)
    (hinv : key ∉ [SAVE, UP, DOWN, LEFT, RIGHT, HEAL, TAKE, FIGHT]) :
    stepDispatch st1 key p =
      StepResult.next { st1 with queue := st1.queue ++ [p] } := by
  simp only [List.mem_cons, List.not_mem_nil, or_false, not_or] at hinv
  obtain ⟨h1, h2, h3, h4, h5, h6, h7, h8⟩ := hinv
  unfold stepDispatch
  rw [if_neg h1, if_neg (by simp [h2, h3, h4, h5]), if_neg h6, if_neg h7, if_neg h8]

lemma handle_move_success (st : GameState) (key : Char) (p : Player)
    (hvalid : is_valid_move st.plain (move key) p = true)
    (hsb : p.is_step_back (move key) = false)
    (hfree : cellAt st.plain (p.move (move key)).cur = FREE) :
    handle_move st key p =
      StepResult.next { st with queue := p.move (move key) :: st.queue } := by
  have hnf : is_fire st.plain (p.move (move key)).cur = false := by
    simp only [is_fire, hfree]; rfl
  have hnk : is_key st.plain (p.move (move key)).cur = false := by
    simp only [is_key, hfree]; rfl
  have hnh : is_heal st.plain (p.move (move key)).cur = false := by
    simp only [is_heal, hfree]; rfl
  have hnfin : is_finish st.plain (p.move (move key)).cur = false := by
    simp only [is_finish, hfree]; rfl
  simp [handle_move, hvalid, hsb, hnf, hnk, hnh, hnfin]

lemma handle_move_finish (st : GameState) (key : Char) (p : Player)
    (hvalid : is_valid_move st.plain (move key) p = true)
    (hsb : p.is_step_back (move key) = false)
    (hfin : cellAt st.plain (p.move (move key)).cur = FINISH) :
    handle_move st key p =
      if p.has_key = true then StepResult.won (p.move (move key))
      else StepResult.next (drop_key_and_kick st (p.move (move key))) := by
  have hnf : is_fire st.plain (p.move (move key)).cur = false := by
    simp only [is_fire, hfin]; rfl
  have hnk : is_key st.plain (p.move (move key)).cur = false := by
    simp only [is_key, hfin]; rfl
  have hnh : is_heal st.plain (p.move (move key)).cur = false := by
    simp only [is_heal, hfin]; rfl
  have hfin2 : is_finish st.plain (p.move (move key)).cur = true := by
    simp only [is_finish, hfin]; rfl
  simp [handle_move, hvalid, hsb, hnf, hnk, hnh, hfin2]

/-! ### Health operations (`receiveDamage` / `heal` / `restoreHealth`) -/

inductive PlayerOp where
  | damage : PlayerOp
  | restore : PlayerOp
  | heal : PlayerOp
deriving DecidableEq, Repr

/-- Apply one health operation exactly as the `Player` methods do. -/
def applyOp (p : Player) : PlayerOp → Player
  | PlayerOp.damage => p.receive_damage
  | PlayerOp.restore => p.restore_health
  | PlayerOp.heal => p.heal

def runOps (p : Player) (ops : List PlayerOp) : Player := ops.foldl applyOp p

/-- A run of the three operations in which `heal` is invoked only when
`can_heal` holds — the contract the engine (its only caller) maintains. -/
inductive GuardedRun : Player → List PlayerOp → Player → Prop
  | nil (p : Player) : GuardedRun p [] p
  | damage (p : Player) (ops : List PlayerOp) (q : Player)
      (h : GuardedRun p.receive_damage ops q) :
      GuardedRun p (PlayerOp.damage :: ops) q
  | restore (p : Player) (ops : List PlayerOp) (q : Player)
      (h : GuardedRun p.restore_health ops q) :
      GuardedRun p (PlayerOp.restore :: ops) q
  | heal (p : Player) (ops : List PlayerOp) (q : Player)
      (hcan : p.can_heal = true) (h : GuardedRun p.heal ops q) :
      GuardedRun p (PlayerOp.heal :: ops) q

lemma guarded_run_inv (p : Player) (ops : List PlayerOp) (q : Player)
    (h : GuardedRun p ops q) :
    p.health ≤ INITIAL_HEALTH ∧ 0 ≤ p.hp → q.health ≤ INITIAL_HEALTH ∧ 0 ≤ q.hp := by
  induction h with
  | nil p => exact id
  | damage p ops q h ih =>
      intro hinv
      refine ih ⟨?_, hinv.2⟩
      simp only [Player.receive_damage]
      omega
  | restore p ops q h ih =>
      intro hinv
      refine ih ⟨?_, ?_⟩ <;> simp only [Player.restore_health]
      · exact le_refl _
      · exact hinv.2
  | heal p ops q hcan h ih =>
      intro hinv
      simp only [Player.can_heal, Bool.and_eq_true, decide_eq_true_eq] at hcan
      refine ih ⟨?_, ?_⟩ <;> simp only [Player.heal] <;> omega

/-! ### Persistence (`SaveManager`) -/

/-- One player's record in `save.json`, as written by `SaveManager.save`. -/
structure PlayerData where
  name : String
  health : Int
  has_key : Bool
  cur : Pos
  prev : Option Pos
  hp : Int
deriving DecidableEq, Repr

def savePlayer (p : Player) : PlayerData :=
  { name := p.name, health := p.health, has_key := p.has_key,
    cur := p.cur, prev := p.prev, hp := p.hp }

/-- The value written by `SaveManager.save`: the ordered player records and
the full marker grid.  JSON round-trips every field here exactly (strings,
ints, booleans, two-element arrays, and null for an absent previous
position), so the dictionary level is the faithful model. -/
structure SaveData where
  queue : List PlayerData
  map : Plain
deriving DecidableEq, Repr

def save_game (q : List Player) (plain : Plain) : SaveData :=
  { queue := q.map savePlayer, map := plain }

/-- `SaveManager.load`: rebuild each player via `Player.__init__` with every
stored field passed; a stored null previous position arrives as `none`. -/
def loadPlayer (d : PlayerData) : Player :=
  mkPlayer d.name (some d.health) (some d.has_key) (some d.cur) d.prev (some d.hp)

def load_game (s : SaveData) : List Player × Plain :=
  (s.queue.map loadPlayer, s.map)

lemma loadPlayer_savePlayer (p : Player) : loadPlayer (savePlayer p) = p := rfl

/-! ### Concrete scenario data -/

/-- A fire sample away from the bottom-left walking area. -/
def sample0 : List Pos := [(0, 5), (0, 6), (1, 5), (2, 5)]

/-- A fire sample away from the heal cell's surroundings. -/
def sample1 : List Pos := [(0, 5), (0, 6), (1, 5), (3, 5)]

/-- A map state in which the key marker sits on the initially-free cell
(0, 5) — the shape a key dropped on a pool cell would have. -/
def plainKeyOnWhite : Plain :=
  [['X', 'X', 'X', 'X', 'H', 'K', ' ', 'F'],
   ['X', 'X', ' ', 'X', 'X', ' ', 'X', 'X'],
   ['X', ' ', ' ', ' ', 'X', ' ', 'H', 'X'],
   [' ', ' ', 'X', ' ', ' ', ' ', 'X', 'X']]

/-- A player standing on the heal cell (2, 6) who came from (2, 5). -/
def pHeal : Player :=
  { name := "A", health := 5, has_key := false, cur := (2, 6),
    prev := some (2, 5), hp := 3 }

/-- A key-holding player one cell left of the Finish cell (0, 7). -/
def pFinish : Player :=
  { name := "A", health := 5, has_key := true, cur := (0, 6),
    prev := some (0, 5), hp := 3 }

/-- A dead key-holder standing on the key cell (1, 2). -/
def pDead : Player :=
  { name := "A", health := 0, has_key := true, cur := (1, 2),
    prev := some (2, 2), hp := 3 }

/-- Eleven turns from a fresh two-player start: A walks to the key cell,
takes the key, and is then kicked by the step-back rule on the only exit,
removing the key from play; B walks a parallel non-backtracking path. -/
def c10trace : List (List Pos × Char) :=
  [(sample0, RIGHT), (sample0, RIGHT),
   (sample0, UP), (sample0, UP),
   (sample0, RIGHT), (sample0, RIGHT),
   (sample0, UP),
   (sample0, RIGHT),
   (sample0, TAKE),
   (sample0, DOWN),
   (sample0, DOWN)]

/-- The state after `c10trace`: B alone, keyless, and no key marker left. -/
def c10final : GameState :=
  { queue := [{ name := "B", health := 5, has_key := false, cur := (3, 3),
                prev := some (2, 3), hp := 3 }],
    plain := [['X', 'X', 'X', 'X', 'H', 'D', 'D', 'F'],
              ['X', 'X', ' ', 'X', 'X', 'D', 'X', 'X'],
              ['X', ' ', ' ', ' ', 'X', 'D', 'H', 'X'],
              [' ', ' ', 'X', ' ', ' ', ' ', 'X', 'X']] }

/-! ### Claim theorems -/

/-- C1 counterexample: with two fresh players A and B (A is popped first),
A's valid move Right into a plain Free cell — no death, no step-back kick,
no win, no removal — puts A at the LEFT end of the deque, so the next player
dequeued is B, not A: the successful mover is NOT the next player dequeued. -/
theorem c1_counterexample :
    valid_sample sample0 ∧
    is_valid_move (spawn_fire (clear_fire INITIAL_PLAIN) sample0) (move RIGHT)
      (freshPlayer "A") = true ∧
    (freshPlayer "A").is_step_back (move RIGHT) = false ∧
    cellAt (spawn_fire (clear_fire INITIAL_PLAIN) sample0)
      ((freshPlayer "A").move (move RIGHT)).cur = FREE ∧
    step (initialState ["A", "B"]) sample0 RIGHT = StepResult.next
      { queue := [(freshPlayer "A").move (move RIGHT), freshPlayer "B"],
        plain := spawn_fire (clear_fire INITIAL_PLAIN) sample0 } ∧
    popRight [(freshPlayer "A").move (move RIGHT), freshPlayer "B"] =
      some (freshPlayer "B", [(freshPlayer "A").move (move RIGHT)]) ∧
    freshPlayer "B" ≠ (freshPlayer "A").move (move RIGHT) := by
  decide

/-- C1 (amended): after a successful move action (valid move, no death, no
step-back kick, no win, no removal) the player is requeued at the BACK of
the turn order — `appendleft`, the left end of the deque — so the resulting
queue is the moved player consed onto the remaining players, and since turns
are popped from the right end, every other queued player is dequeued before
that player acts again. -/
theorem c1_amended_back_requeue (st : GameState) (sample : List Pos) (key : Char)
    (p : Player) (rest : List Player) (hq : st.queue = rest ++ [p])
    (hdir : key ∈ [UP, DOWN, LEFT, RIGHT])
    (hvalid : is_valid_move (spawn_fire (clear_fire st.plain) sample) (move key) p = true)
    (hsb : p.is_step_back (move key) = false)
    (hfree : cellAt (spawn_fire (clear_fire st.plain) sample)
      (p.move (move key)).cur = FREE) :
    step st sample key = StepResult.next
      { queue := p.move (move key) :: rest,
        plain := spawn_fire (clear_fire st.plain) sample } := by
  rw [step_queue_concat st sample key p rest hq, stepDispatch_move _ _ _ hdir,
      handle_move_success _ _ _ hvalid hsb hfree]

/-- C1 witness: the amended theorem applied at the fresh two-player start. -/
theorem c1_witness :
    step (initialState ["A", "B"]) sample0 RIGHT = StepResult.next
      { queue := [(freshPlayer "A").move (move RIGHT), freshPlayer "B"],
        plain := spawn_fire (clear_fire INITIAL_PLAIN) sample0 } :=
  c1_amended_back_requeue (initialState ["A", "B"]) sample0 RIGHT
    (freshPlayer "A") [freshPlayer "B"] (by decide) (by decide) (by decide)
    (by decide) (by decide)

/-- C2 counterexample: an unrecognized command 'x' appends the player at the
RIGHT end of the deque — the end `pop` takes from — so the same player is the
very next one dequeued, while B keeps waiting: the invalid input does NOT
cost a full turn. -/
theorem c2_counterexample :
    valid_sample sample0 ∧
    ('x' : Char) ∉ [SAVE, UP, DOWN, LEFT, RIGHT, HEAL, TAKE, FIGHT] ∧
    step (initialState ["A", "B"]) sample0 'x' = StepResult.next
      { queue := [freshPlayer "B", freshPlayer "A"],
        plain := spawn_fire (clear_fire INITIAL_PLAIN) sample0 } ∧
    popRight [freshPlayer "B", freshPlayer "A"] =
      some (freshPlayer "A", [freshPlayer "B"]) ∧
    freshPlayer "A" ≠ freshPlayer "B" := by
  decide

/-- C2 (amended): a command outside the recognized vocabulary requeues the
player at the FRONT of the turn order — `append`, the right end of the deque,
which `pop` takes from — so that same player is the next one dequeued and
simply retries; no other queued player acts in between. -/
theorem c2_amended_front_requeue (st : GameState) (sample : List Pos) (key : Char)
    (p : Player) (rest : List Player) (hq : st.queue = rest ++ [p])
    (hinv : key ∉ [SAVE, UP, DOWN, LEFT, RIGHT, HEAL, TAKE, FIGHT]) :
    step st sample key = StepResult.next
      { queue := rest ++ [p], plain := spawn_fire (clear_fire st.plain) sample } ∧
    popRight (rest ++ [p]) = some (p, rest) := by
  refine ⟨?_, popRight_concat rest p⟩
  rw [step_queue_concat st sample key p rest hq, stepDispatch_invalid _ _ _ hinv]

/-- C2 witness: the amended theorem applied at the fresh two-player start with
the unrecognized key 'x'. -/
theorem c2_witness :
    step (initialState ["A", "B"]) sample0 'x' = StepResult.next
      { queue := [freshPlayer "B"] ++ [freshPlayer "A"],
        plain := spawn_fire (clear_fire INITIAL_PLAIN) sample0 } ∧
    popRight ([freshPlayer "B"] ++ [freshPlayer "A"]) =
      some (freshPlayer "A", [freshPlayer "B"]) :=
  c2_amended_front_requeue (initialState ["A", "B"]) sample0 'x'
    (freshPlayer "A") [freshPlayer "B"] (by decide) (by decide)

/-- C3 counterexample: on a map state whose key marker sits on the
initially-free cell (0, 5), a sample containing (0, 5) — a sample
`random.sample(WHITE_CELLS, 4)` can return — marks that cell Hazard even
though it was marked Key, not Free, immediately before `spawn_fire`:
`spawn_fire` draws from the static initial pool, not the currently-Free
cells, and a Key marker on a sampled cell is destroyed. -/
theorem c3_counterexample :
    valid_sample sample0 ∧ (0, 5) ∈ sample0 ∧ (0, 5) ∈ WHITE_CELLS ∧
    cellAt plainKeyOnWhite (0, 5) = KEY ∧
    cellAt (clear_fire plainKeyOnWhite) (0, 5) = KEY ∧
    cellAt (spawn_fire (clear_fire plainKeyOnWhite) sample0) (0, 5) = FIRE := by
  decide

/-- C3 (amended): for every map of the game's dimensions and every sample the
rng can draw, `clear_fire` followed by `spawn_fire` leaves exactly
`FIRE_AMOUNT` cells marked Hazard — the sampled ones, all from the STATIC
initial free-cell pool; every non-sampled cell keeps its previous marker
except Hazard cells, which are reset to Free.  (A sampled cell need not be
Free at the time: in particular a Key marker there is overwritten.) -/
theorem c3_amended_respawn (pl : Plain) (sample : List Pos)
    (hsh : Shape pl) (hv : valid_sample sample) :
    (cells_with (spawn_fire (clear_fire pl) sample) FIRE).length = FIRE_AMOUNT ∧
    (∀ pos ∈ sample, pos ∈ WHITE_CELLS ∧
      cellAt (spawn_fire (clear_fire pl) sample) pos = FIRE) ∧
    (∀ pos : Pos, pos ∉ sample →
      cellAt (spawn_fire (clear_fire pl) sample) pos =
        if cellAt pl pos = FIRE then FREE else cellAt pl pos) := by
  obtain ⟨hnd, hlen, hsub⟩ := hv
  refine ⟨length_fire_after_respawn pl sample hsh ⟨hnd, hlen, hsub⟩, ?_, ?_⟩
  · intro pos hpos
    refine ⟨hsub pos hpos, ?_⟩
    rw [cellAt_respawn pl sample pos hsub hsh, if_pos hpos]
  · intro pos hpos
    rw [cellAt_respawn pl sample pos hsub hsh, if_neg hpos]

/-- C3 witness: the amended theorem applied to the initial map and a concrete
sample. -/
theorem c3_witness :
    (cells_with (spawn_fire (clear_fire INITIAL_PLAIN) sample0) FIRE).length =
      FIRE_AMOUNT ∧
    (∀ pos ∈ sample0, pos ∈ WHITE_CELLS ∧
      cellAt (spawn_fire (clear_fire INITIAL_PLAIN) sample0) pos = FIRE) ∧
    (∀ pos : Pos, pos ∉ sample0 →
      cellAt (spawn_fire (clear_fire INITIAL_PLAIN) sample0) pos =
        if cellAt INITIAL_PLAIN pos = FIRE then FREE
        else cellAt INITIAL_PLAIN pos) :=
  c3_amended_respawn INITIAL_PLAIN sample0 (by decide) (by decide)

/-- C4 counterexample: the raw operations are unguarded — a single `heal` on
a freshly created (full-health) player pushes health above the maximum, and
four raw heals drive the heal-charge count negative. -/
theorem c4_counterexample :
    (runOps (freshPlayer "A") [PlayerOp.heal]).health > INITIAL_HEALTH ∧
    (runOps (freshPlayer "A")
      [PlayerOp.heal, PlayerOp.heal, PlayerOp.heal, PlayerOp.heal]).hp < 0 := by
  decide

/-- C4 (amended): for every sequence of `receive_damage` / `heal` /
`restore_health` applied to a freshly created player IN WHICH each `heal` is
performed only when `can_heal` holds (the contract the engine keeps), health
never exceeds `INITIAL_HEALTH`, the heal-charge count never becomes negative,
and a player with health ≤ 0 is not alive. -/
theorem c4_amended_guarded (name : String) (ops : List PlayerOp) (q : Player)
    (h : GuardedRun (freshPlayer name) ops q) :
    q.health ≤ INITIAL_HEALTH ∧ 0 ≤ q.hp ∧
      (q.health ≤ 0 → q.is_alive = false) := by
  have hinv := guarded_run_inv (freshPlayer name) ops q h
    ⟨le_refl _, by show (0 : Int) ≤ HEAL_POINTS; decide⟩
  refine ⟨hinv.1, hinv.2, ?_⟩
  intro hh
  simp only [Player.is_alive, decide_eq_false_iff_not]
  omega

/-- C4 witness: the amended theorem applied to a damage-then-heal run. -/
theorem c4_witness :
    ((freshPlayer "A").receive_damage.heal).health ≤ INITIAL_HEALTH ∧
    0 ≤ ((freshPlayer "A").receive_damage.heal).hp ∧
    (((freshPlayer "A").receive_damage.heal).health ≤ 0 →
      ((freshPlayer "A").receive_damage.heal).is_alive = false) :=
  c4_amended_guarded "A" [PlayerOp.damage, PlayerOp.heal] _
    (GuardedRun.damage _ _ _
      (GuardedRun.heal _ _ _ (by decide) (GuardedRun.nil _)))

/-- C5: a move landing on the Finish cell wins immediately when the player
holds the key; without the key the player undergoes death handling — removed
(not requeued), with no key-marker change — and the game continues with the
remaining players. -/
theorem c5_finish_rule (st : GameState) (sample : List Pos) (key : Char)
    (p : Player) (rest : List Player) (hq : st.queue = rest ++ [p])
    (hdir : key ∈ [UP, DOWN, LEFT, RIGHT])
    (hvalid : is_valid_move (spawn_fire (clear_fire st.plain) sample) (move key) p = true)
    (hsb : p.is_step_back (move key) = false)
    (hfin : cellAt (spawn_fire (clear_fire st.plain) sample)
      (p.move (move key)).cur = FINISH)
    (hnotin : p.move (move key) ∉ rest) :
    (p.has_key = true →
      step st sample key = StepResult.won (p.move (move key))) ∧
    (p.has_key = false →
      step st sample key = StepResult.next
        { queue := rest, plain := spawn_fire (clear_fire st.plain) sample }) := by
  have hstep := step_queue_concat st sample key p rest hq
  rw [stepDispatch_move _ _ _ hdir, handle_move_finish _ _ _ hvalid hsb hfin] at hstep
  constructor
  · intro hk
    rw [hstep, if_pos hk]
  · intro hk
    rw [hstep, if_neg (by simp [hk])]
    unfold drop_key_and_kick
    simp [hk, List.erase_of_not_mem hnotin]

/-- C5 witness: a key-holding player one cell left of Finish moves Right and
wins. -/
theorem c5_witness :
    step { queue := [freshPlayer "B", pFinish], plain := INITIAL_PLAIN }
        sample0 RIGHT =
      StepResult.won (pFinish.move (move RIGHT)) :=
  (c5_finish_rule _ sample0 RIGHT pFinish [freshPlayer "B"] (by decide) (by decide)
    (by decide) (by decide) (by decide) (by decide)).1 (by decide)

/-- C6: death handling for a player occurring at most once in the queue —
with the key: the marker at the death position becomes Key and the player is
gone from the queue; without the key: the player is gone and the grid is
untouched. -/
theorem c6_death_handling (st : GameState) (p : Player)
    (hcount : st.queue.count p ≤ 1) (hin : inBounds st.plain p.cur) :
    p ∉ (drop_key_and_kick st p).queue ∧
    (p.has_key = true → cellAt (drop_key_and_kick st p).plain p.cur = KEY) ∧
    (p.has_key = false → (drop_key_and_kick st p).plain = st.plain) := by
  refine ⟨?_, ?_, ?_⟩
  · intro hmem
    have h1 : 0 < (st.queue.erase p).count p := List.count_pos_iff.mpr hmem
    rw [List.count_erase_self] at h1
    omega
  · intro hk
    simp only [drop_key_and_kick, hk, if_true, spawn_key]
    exact cellAt_mark_self st.plain p.cur KEY hin
  · intro hk
    simp [drop_key_and_kick, hk]

/-- C6 witness: the theorem applied to a dead key-holder at the key cell. -/
theorem c6_witness :
    pDead ∉ (drop_key_and_kick { queue := [pDead], plain := INITIAL_PLAIN }
      pDead).queue ∧
    cellAt (drop_key_and_kick { queue := [pDead], plain := INITIAL_PLAIN }
      pDead).plain pDead.cur = KEY := by
  have h := c6_death_handling { queue := [pDead], plain := INITIAL_PLAIN } pDead
    (by decide) (by decide)
  exact ⟨h.1, h.2.1 rfl⟩

/-- C7: the claim is right and the code is wrong.  A player on the Heal cell
(2, 6) who came from (2, 5) and moves back there is kicked from the queue,
because `is_heal_or_key` compares the cell against the ACTION key 'h'
(`HEAL`) instead of the heal marker 'H' (`HEALTH`): the cell satisfies
`is_heal` but not `is_heal_or_key`, so the Heal-cell exemption never fires. -/
theorem c7_step_back_heal_bug :
    cellAt INITIAL_PLAIN pHeal.cur = HEALTH ∧
    cellAt (spawn_fire (clear_fire INITIAL_PLAIN) sample1) pHeal.cur = HEALTH ∧
    pHeal.is_step_back (move LEFT) = true ∧
    is_valid_move (spawn_fire (clear_fire INITIAL_PLAIN) sample1) (move LEFT)
      pHeal = true ∧
    is_heal (spawn_fire (clear_fire INITIAL_PLAIN) sample1) pHeal.cur = true ∧
    is_heal_or_key (spawn_fire (clear_fire INITIAL_PLAIN) sample1) pHeal.cur = false ∧
    valid_sample sample1 ∧
    step { queue := [freshPlayer "B", pHeal], plain := INITIAL_PLAIN } sample1 LEFT =
      StepResult.next
        { queue := [freshPlayer "B"],
          plain := spawn_fire (clear_fire INITIAL_PLAIN) sample1 } ∧
    pHeal ∉ [freshPlayer "B"] := by
  decide

/-- C8: in every state reachable by the engine from a fresh start with
distinct names, no player name occurs twice in the turn queue — in
particular the hit-wall and step-on-fire paths never reinsert a player that
is still queued. -/
theorem c8_queue_names_nodup (st : GameState) (h : Reachable st) :
    (st.queue.map Player.name).Nodup :=
  reachable_names_nodup st h

/-- C8 witness: the theorem applied to the fresh two-player start. -/
theorem c8_witness : ((initialState ["A", "B"]).queue.map Player.name).Nodup :=
  c8_queue_names_nodup (initialState ["A", "B"])
    (Reachable.init ["A", "B"] (by decide))

/-- C9: saving a (queue, map) pair and loading it back reproduces the marker
grid cell-for-cell and every player's name, health, key possession, current
position, previous position (including `none`, stored as null) and heal
charges, in the original order. -/
theorem c9_save_load_round_trip (q : List Player) (pl : Plain) :
    load_game (save_game q pl) = (q, pl) := by
  unfold load_game save_game
  simp only [List.map_map]
  rw [show loadPlayer ∘ savePlayer = id from funext loadPlayer_savePlayer,
      List.map_id]

/-- C10: (a) a reachable state exists with no Key marker on the map and no
queued key-holder; (b) whenever a Key marker lies on a cell of the static
initial free-cell pool, a hazard respawn whose sample contains that cell
overwrites the marker with Hazard and the next clearing resets it to Free;
(c) once keyless, every further turn stays keyless and a won outcome is
impossible — the win condition can never again be satisfied. -/
theorem c10_key_erasable :
    (∃ st : GameState, Reachable st ∧ st.queue ≠ [] ∧
      (∀ p ∈ st.queue, p.has_key = false) ∧ cells_with st.plain KEY = []) ∧
    (∀ (pl : Plain) (pos : Pos) (sample : List Pos),
      Shape pl → pos ∈ WHITE_CELLS → cellAt pl pos = KEY →
      (∀ c ∈ sample, c ∈ WHITE_CELLS) → pos ∈ sample →
        cellAt (spawn_fire (clear_fire pl) sample) pos = FIRE ∧
        cellAt (clear_fire (spawn_fire (clear_fire pl) sample)) pos = FREE) ∧
    (∀ st : GameState, KeylessState st →
      ∀ (sample : List Pos) (key : Char), KeylessResult (step st sample key)) := by
  refine ⟨⟨c10final, ?_, by decide, by decide, by decide⟩, ?_, ?_⟩
  · exact runTurns_reachable c10trace (initialState ["A", "B"]) c10final
      (Reachable.init ["A", "B"] (by decide)) (by decide) (by decide)
  · intro pl pos sample hsh hw hkey hsub hmem
    have h1 : cellAt (spawn_fire (clear_fire pl) sample) pos = FIRE := by
      rw [cellAt_respawn pl sample pos hsub hsh, if_pos hmem]
    refine ⟨h1, ?_⟩
    rw [cellAt_clear_fire, h1, if_pos rfl]
  · intro st hst sample key
    exact keyless_step st sample key hst

/-- C10 witness: the overwrite-and-erase mechanism applied to a concrete map
with the key on pool cell (0, 5) and a sample containing it. -/
theorem c10_witness :
    cellAt (spawn_fire (clear_fire plainKeyOnWhite) sample0) (0, 5) = FIRE ∧
    cellAt (clear_fire (spawn_fire (clear_fire plainKeyOnWhite) sample0)) (0, 5) =
      FREE :=
  c10_key_erasable.2.1 plainKeyOnWhite (0, 5) sample0 (by decide) (by decide)
    (by decide) (by decide) (by decide)

end Spacelab
